import Mathlib

/-!
Verification development for the Stock backtesting core.

Shallow embedding of the repository's Python sources:
  * `trading_system/data/portfolio.py`   (Position, TradeRecord, Portfolio)
  * `trading_system/backtest/engine.py`  (BacktestEngine)
  * `trading_system/backtest/metrics.py` (BacktestMetrics, calculate_metrics)

Python floats are modelled as exact rationals (ℚ), Python ints as ℤ/ℕ,
dates as naturals (any totally ordered date type works the same), and the
insertion-ordered `dict[str, Position]` as an association list with
insertion at the end.  Python division raises `ZeroDivisionError`; wherever
a zero divisor is reachable the embedding threads an `Except String`.
-/

set_option maxHeartbeats 1000000

namespace Stock

/-! ## portfolio.py -/

/-- Embeds `Position` (portfolio.py): per-ticker quantity / average price /
buy count / total invested, with the source's defaults. -/
structure Position where
  ticker : String
  quantity : ℤ := 0
  avg_price : ℚ := 0
  buy_count : ℕ := 0
  total_invested : ℚ := 0
  deriving DecidableEq, Repr

/-- Embeds `Position.update_on_buy`: weighted-average cost update. -/
def Position.update_on_buy (pos : Position) (quantity : ℤ) (price : ℚ) : Position :=
  let total_cost : ℚ := pos.avg_price * (pos.quantity : ℚ) + price * (quantity : ℚ)
  let newQuantity := pos.quantity + quantity
  { pos with
    quantity := newQuantity
    avg_price := if newQuantity > 0 then total_cost / (newQuantity : ℚ) else 0
    buy_count := pos.buy_count + 1
    total_invested := pos.total_invested + price * (quantity : ℚ) }

/-- Embeds `Position.update_on_sell`: clamp the quantity to the holding,
decrement, and reset the cost basis when the position goes flat. -/
def Position.update_on_sell (pos : Position) (quantity : ℤ) : Position :=
  let q := if quantity > pos.quantity then pos.quantity else quantity
  let newQuantity := pos.quantity - q
  if newQuantity = 0 then
    { pos with quantity := 0, avg_price := 0, buy_count := 0, total_invested := 0 }
  else
    { pos with quantity := newQuantity }

/-- Embeds `TradeRecord` (portfolio.py); `side` is the Python string
"buy" / "sell". -/
structure TradeRecord where
  date : String
  ticker : String
  side : String
  quantity : ℤ
  price : ℚ
  commission : ℚ := 0
  tax : ℚ := 0
  profit : ℚ := 0
  profit_rate : ℚ := 0
  reason : String := ""
  deriving DecidableEq, Repr

/-- Embeds `Portfolio.__init__`.  The insertion-ordered `dict[str, Position]`
is an association list extended at the end. -/
structure Portfolio where
  initial_cash : ℚ
  cash : ℚ
  positions : List (String × Position) := []
  trade_history : List TradeRecord := []
  daily_loss : ℚ := 0
  last_trade_date : String := ""
  deriving DecidableEq, Repr

/-- `Portfolio(initial_cash)`. -/
def Portfolio.init (initial_cash : ℚ) : Portfolio :=
  { initial_cash := initial_cash, cash := initial_cash }

/-- Pure dict lookup (`ticker in self.positions` / `self.positions[ticker]`). -/
def Portfolio.lookupPosition (p : Portfolio) (ticker : String) : Option Position :=
  (p.positions.find? (fun e => e.1 == ticker)).map (fun e => e.2)

/-- Embeds `Portfolio.get_position`: returns the position, creating (and
recording) an empty one when the ticker is absent.  The second component is
the portfolio after the possible insertion. -/
def Portfolio.get_position (p : Portfolio) (ticker : String) : Position × Portfolio :=
  match p.lookupPosition ticker with
  | some pos => (pos, p)
  | none =>
      let pos : Position := { ticker := ticker }
      (pos, { p with positions := p.positions ++ [(ticker, pos)] })

/-- In-place mutation of the dict entry holding `ticker` (Python mutates the
`Position` object aliased by the dict). -/
def updateEntry (l : List (String × Position)) (ticker : String) (pos : Position) :
    List (String × Position) :=
  match l with
  | [] => []
  | e :: rest => if e.1 == ticker then (e.1, pos) :: rest else e :: updateEntry rest ticker pos

/-- Embeds `Portfolio.execute_buy`.  Returns the Python boolean together
with the portfolio after the call. -/
def Portfolio.execute_buy (p : Portfolio) (ticker : String) (quantity : ℤ)
    (price commission : ℚ) (date reason : String) : Bool × Portfolio :=
  let total_cost := price * (quantity : ℚ) + commission
  if total_cost > p.cash then (false, p)
  else
    let p1 := { p with cash := p.cash - total_cost }
    let posP := p1.get_position ticker
    let pos := posP.1.update_on_buy quantity price
    let p3 := { posP.2 with positions := updateEntry posP.2.positions ticker pos }
    let tr : TradeRecord :=
      { date := date, ticker := ticker, side := "buy", quantity := quantity,
        price := price, commission := commission, reason := reason }
    (true, { p3 with trade_history := p3.trade_history ++ [tr] })

/-- Embeds `Portfolio.execute_sell`.  Note that `get_position` runs (and may
insert a fresh entry) before the holdings check. -/
def Portfolio.execute_sell (p : Portfolio) (ticker : String) (quantity : ℤ)
    (price commission tax : ℚ) (date reason : String) : Bool × Portfolio :=
  let posP := p.get_position ticker
  let pos := posP.1
  let p1 := posP.2
  if pos.quantity < quantity then (false, p1)
  else
    let avg_price := pos.avg_price
    let revenue := price * (quantity : ℚ) - commission - tax
    let p2 := { p1 with cash := p1.cash + revenue }
    let profit := (price - avg_price) * (quantity : ℚ) - commission - tax
    let profit_rate := if avg_price > 0 then (price - avg_price) / avg_price * 100 else 0
    let pos2 := pos.update_on_sell quantity
    let p3 := { p2 with positions := updateEntry p2.positions ticker pos2 }
    let p4 :=
      if date ≠ p3.last_trade_date then
        { p3 with daily_loss := 0, last_trade_date := date }
      else p3
    let p5 := if profit < 0 then { p4 with daily_loss := p4.daily_loss + |profit| } else p4
    let tr : TradeRecord :=
      { date := date, ticker := ticker, side := "sell", quantity := quantity,
        price := price, commission := commission, tax := tax,
        profit := profit, profit_rate := profit_rate, reason := reason }
    (true, { p5 with trade_history := p5.trade_history ++ [tr] })

/-! ## core/trading_strategy.py -/

/-- Embeds `SignalType` (trading_strategy.py). -/
inductive SignalType where
  | buy
  | sell
  | hold
  deriving DecidableEq, Repr

/-- Embeds `Signal` (trading_strategy.py); `metadata` is diagnostic only and
omitted. -/
structure Signal where
  signal_type : SignalType
  ticker : String
  price : ℚ := 0
  quantity : ℤ := 0
  reason : String := ""
  deriving DecidableEq, Repr

/-- Embeds `PositionInfo` (trading_strategy.py). -/
structure PositionInfo where
  ticker : String
  quantity : ℤ := 0
  avg_price : ℚ := 0
  buy_count : ℕ := 0
  max_buy_count : ℤ := 0
  unrealized_profit : ℚ := 0
  unrealized_profit_rate : ℚ := 0
  deriving DecidableEq, Repr

/-- One OHLCV row.  The engine's control flow reads only `date` and
`close`; the remaining columns are payload carried to the strategy, so a
row is modelled by those two fields (dates as naturals, any totally ordered
date type behaves identically). -/
structure Row where
  date : ℕ
  close : ℚ
  deriving DecidableEq, Repr

/-- A `TradingStrategy`: `params.get("split_count", 5)` is modelled by the
`split_count` field, and `generate_signal` by a function of the market-data
view, the position info and the available cash. -/
structure Strategy where
  split_count : ℤ := 5
  generate_signal : List Row → PositionInfo → ℚ → Signal

/-! ## backtest/engine.py -/

/-- The `BacktestEngine` configuration (constructor defaults of
`BacktestEngine.__init__`). -/
structure EngineCfg where
  initial_cash : ℚ := 10000000
  commission_rate : ℚ := 15 / 100000
  tax_rate : ℚ := 23 / 10000
  slippage_rate : ℚ := 1 / 1000
  deriving DecidableEq, Repr

/-- The engine with all constructor defaults. -/
def defaultCfg : EngineCfg := {}

/-- `DataFrame.tail n`: the trailing `n` rows. -/
def tailN (l : List Row) (n : ℕ) : List Row :=
  l.drop (l.length - n)

/-- Embeds `BacktestEngine._execute_buy`: slippage against the buyer, then
commission, then the ledger call. -/
def engineExecuteBuy (cfg : EngineCfg) (p : Portfolio) (ticker : String)
    (quantity : ℤ) (price : ℚ) (date_str reason : String) : Portfolio :=
  let exec_price := price * (1 + cfg.slippage_rate)
  let commission := exec_price * (quantity : ℚ) * cfg.commission_rate
  (p.execute_buy ticker quantity exec_price commission date_str reason).2

/-- Embeds `BacktestEngine._execute_sell`: slippage against the seller,
commission and sell tax, then the ledger call. -/
def engineExecuteSell (cfg : EngineCfg) (p : Portfolio) (ticker : String)
    (quantity : ℤ) (price : ℚ) (date_str reason : String) : Portfolio :=
  let exec_price := price * (1 - cfg.slippage_rate)
  let commission := exec_price * (quantity : ℚ) * cfg.commission_rate
  let tax := exec_price * (quantity : ℚ) * cfg.tax_rate
  (p.execute_sell ticker quantity exec_price commission tax date_str reason).2

/-- The point-in-time view handed to the strategy on day `d`:
`df[df["date"] <= current_date].tail(30)`. -/
def pointInTimeView (df : List Row) (d : ℕ) : List Row :=
  tailN (df.filter (fun r => r.date ≤ d)) 30

/-- Embeds the per-ticker body of `BacktestEngine._simulate_day`:
build the point-in-time view, skip if the ticker has no row dated `d`,
otherwise query the strategy and route its signal to the ledger. -/
def simulateDayTicker (cfg : EngineCfg) (strategy : Strategy) (p : Portfolio)
    (ticker : String) (df : List Row) (current_date : ℕ) : Portfolio :=
  let available_data := df.filter (fun r => r.date ≤ current_date)
  if available_data.isEmpty then p
  else
    match df.filter (fun r => r.date = current_date) with
    | [] => p
    | today :: _ =>
        let current_price := today.close
        let posP := p.get_position ticker
        let position := posP.1
        let p1 := posP.2
        let position_info : PositionInfo :=
          { ticker := ticker, quantity := position.quantity,
            avg_price := position.avg_price, buy_count := position.buy_count,
            max_buy_count := strategy.split_count }
        let signal := strategy.generate_signal (tailN available_data 30)
          position_info p1.cash
        match signal.signal_type with
        | SignalType.buy =>
            engineExecuteBuy cfg p1 ticker signal.quantity current_price
              (toString current_date) signal.reason
        | SignalType.sell =>
            engineExecuteSell cfg p1 ticker signal.quantity current_price
              (toString current_date) signal.reason
        | SignalType.hold => p1

/-- Embeds `BacktestEngine._simulate_day`: every ticker, in supplied order. -/
def simulateDay (cfg : EngineCfg) (strategy : Strategy)
    (ticker_data : List (String × List Row)) (p : Portfolio)
    (current_date : ℕ) : Portfolio :=
  ticker_data.foldl
    (fun p e => simulateDayTicker cfg strategy p e.1 e.2 current_date) p

/-- Embeds `BacktestEngine._calculate_total_value`: cash plus, for each held
ticker, quantity times that day's close when available, else the average
price. -/
def calcTotalValue (ticker_data : List (String × List Row)) (p : Portfolio)
    (current_date : ℕ) : ℚ :=
  (p.positions.filter (fun e => e.2.quantity > 0)).foldl
    (fun total e =>
      let position := e.2
      let price :=
        match ticker_data.find? (fun td => td.1 == e.1) with
        | some td =>
            match td.2.filter (fun r => r.date = current_date) with
            | today :: _ => today.close
            | [] => position.avg_price
        | none => position.avg_price
      total + (position.quantity : ℚ) * price)
    p.cash

/-- The trading-day set of `run_backtest`: the sorted union of the dates in
`[start_date, end_date]` over all supplied series. -/
def tradingDates (data : List (String × List Row)) (start_date end_date : ℕ) :
    List ℕ :=
  (((data.flatMap (fun e => e.2)).filter
      (fun r => start_date ≤ r.date ∧ r.date ≤ end_date)).map
    (fun r => r.date)).dedup.mergeSort (· ≤ ·)

/-! ## backtest/metrics.py -/

/-- Python `/`, which raises `ZeroDivisionError` on a zero divisor. -/
def divQ (a b : ℚ) : Except String ℚ :=
  if b = 0 then Except.error "ZeroDivisionError" else Except.ok (a / b)

/-- The maximum-drawdown loop of `calculate_metrics`: running peak and
running maximum drawdown, `dd = (peak - value) / peak * 100`. -/
def mddGo (peak max_dd : ℚ) : List ℚ → Except String ℚ
  | [] => Except.ok max_dd
  | value :: rest =>
      let peak2 := if value > peak then value else peak
      match divQ (peak2 - value) peak2 with
      | Except.error e => Except.error e
      | Except.ok dd0 =>
          let dd := dd0 * 100
          mddGo peak2 (if dd > max_dd then dd else max_dd) rest

/-- Maximum drawdown of a valuation series (`peak` starts at
`daily_values[0]`); 0 for the empty series. -/
def maxDrawdownCalc : List ℚ → Except String ℚ
  | [] => Except.ok 0
  | v0 :: rest => mddGo v0 0 (v0 :: rest)

/-- The daily simple returns of `calculate_metrics`: consecutive pairs with
a positive predecessor. -/
def dailyReturns : List ℚ → List ℚ
  | a :: b :: rest => (if a > 0 then [(b - a) / a] else []) ++ dailyReturns (b :: rest)
  | _ => []

/-- `np.mean`. -/
noncomputable def meanR (l : List ℝ) : ℝ := l.sum / l.length

/-- `np.std` (population standard deviation). -/
noncomputable def stdR (l : List ℝ) : ℝ :=
  Real.sqrt (meanR (l.map (fun x => (x - meanR l) ^ 2)))

open Classical in
/-- The Sharpe-ratio block of `calculate_metrics`. -/
noncomputable def sharpeCalc (daily_values : List ℚ) : ℝ :=
  let daily_returns := dailyReturns daily_values
  if daily_returns.isEmpty then 0
  else
    let risk_free_daily : ℝ := (3 : ℝ) / 100 / 252
    let excess := daily_returns.map (fun r => (r : ℚ) - risk_free_daily)
    if stdR excess > 0 then meanR excess / stdR excess * Real.sqrt 252 else 0

open Classical in
/-- The annualized-return block of `calculate_metrics`.  The division
`final_value / initial_cash` is reached only after `total_return` already
divided by the same `initial_cash`, so a zero divisor would have raised
there first; total division is therefore faithful here. -/
noncomputable def annualReturnCalc (final_value initial_cash : ℚ)
    (trading_days : ℕ) : ℝ :=
  if trading_days > 0 then
    let years : ℝ := (trading_days : ℝ) / 252
    if years > 0 then
      let total_ratio : ℝ := ((final_value / initial_cash : ℚ) : ℝ)
      (total_ratio ^ ((1 : ℝ) / years) - 1) * 100
    else 0
  else 0

/-- `sell_trades = [t for t in trade_history if t.side == "sell"]`. -/
def sellsOf (trade_history : List TradeRecord) : List TradeRecord :=
  trade_history.filter (fun t => t.side == "sell")

/-- `profits = [t.profit for t in sell_trades]`. -/
def profitsOf (trade_history : List TradeRecord) : List ℚ :=
  (sellsOf trade_history).map (fun t => t.profit)

/-- `winners = [p for p in profits if p > 0]`. -/
def winnersOf (trade_history : List TradeRecord) : List ℚ :=
  (profitsOf trade_history).filter (fun p => p > 0)

/-- `losers = [p for p in profits if p <= 0]`. -/
def losersOf (trade_history : List TradeRecord) : List ℚ :=
  (profitsOf trade_history).filter (fun p => p ≤ 0)

/-- `win_rate = len(winners) / len(sell_trades) * 100`, 0 with no sells. -/
def winRateCalc (trade_history : List TradeRecord) : ℚ :=
  if (sellsOf trade_history).isEmpty then 0
  else ((winnersOf trade_history).length : ℚ) /
    ((sellsOf trade_history).length : ℚ) * 100

/-- `avg_profit`: mean of the winning profits, 0 if there are none. -/
def avgProfitCalc (trade_history : List TradeRecord) : ℚ :=
  if (winnersOf trade_history).isEmpty then 0
  else (winnersOf trade_history).sum / ((winnersOf trade_history).length : ℚ)

/-- `avg_loss`: mean of the non-positive profits, 0 if there are none. -/
def avgLossCalc (trade_history : List TradeRecord) : ℚ :=
  if (losersOf trade_history).isEmpty then 0
  else (losersOf trade_history).sum / ((losersOf trade_history).length : ℚ)

/-- `profit_factor = total_profit / total_loss if total_loss > 0 else inf`,
inside the `if sell_trades:` guard.  Python's `float("inf")` is `⊤`. -/
def profitFactorCalc (trade_history : List TradeRecord) : WithTop ℚ :=
  if (sellsOf trade_history).isEmpty then 0
  else
    let total_profit := (winnersOf trade_history).sum
    let total_loss := |(losersOf trade_history).sum|
    if total_loss > 0 then ((total_profit / total_loss : ℚ) : WithTop ℚ) else ⊤

/-- The consecutive win / loss streak scan of `calculate_metrics`. -/
def streakGo (cw cl mw ml : ℕ) : List ℚ → ℕ × ℕ
  | [] => (mw, ml)
  | p :: rest =>
      if p > 0 then streakGo (cw + 1) 0 (max mw (cw + 1)) ml rest
      else streakGo 0 (cl + 1) mw (max ml (cl + 1)) rest

/-- `(max_consecutive_wins, max_consecutive_losses)` over the sell profits. -/
def maxStreaks (profits : List ℚ) : ℕ × ℕ := streakGo 0 0 0 0 profits

/-- Embeds `BacktestMetrics` (metrics.py) with its zero defaults.
`annual_return` and `sharpe_ratio` involve real powers and square roots and
are real-valued; every other field is exact. -/
structure BacktestMetrics where
  total_return : ℚ := 0
  annual_return : ℝ := 0
  sharpe_ratio : ℝ := 0
  max_drawdown : ℚ := 0
  win_rate : ℚ := 0
  avg_profit : ℚ := 0
  avg_loss : ℚ := 0
  profit_factor : WithTop ℚ := 0
  total_trades : ℕ := 0
  winning_trades : ℕ := 0
  losing_trades : ℕ := 0
  avg_holding_days : ℚ := 0
  max_consecutive_wins : ℕ := 0
  max_consecutive_losses : ℕ := 0

/-- Embeds `calculate_metrics` (metrics.py).  The `Except` layer carries
Python's `ZeroDivisionError`: first from the `total_return` division by
`initial_cash`, then from the drawdown division by the running peak; every
later division in the source is guarded by a non-emptiness or positivity
check and cannot raise. -/
noncomputable def calculateMetrics (trade_history : List TradeRecord)
    (daily_values : List ℚ) (initial_cash : ℚ) (trading_days : ℕ) :
    Except String BacktestMetrics :=
  match daily_values with
  | [] => Except.ok {}
  | v0 :: vrest =>
      let dv := v0 :: vrest
      let final_value := dv.getLast (by simp)
      match divQ (final_value - initial_cash) initial_cash with
      | Except.error e => Except.error e
      | Except.ok r0 =>
          match maxDrawdownCalc dv with
          | Except.error e => Except.error e
          | Except.ok max_dd =>
              Except.ok {
                total_return := r0 * 100
                annual_return := annualReturnCalc final_value initial_cash trading_days
                sharpe_ratio := sharpeCalc dv
                max_drawdown := max_dd
                win_rate := winRateCalc trade_history
                avg_profit := avgProfitCalc trade_history
                avg_loss := avgLossCalc trade_history
                profit_factor := profitFactorCalc trade_history
                total_trades := (sellsOf trade_history).length
                winning_trades := (winnersOf trade_history).length
                losing_trades := (losersOf trade_history).length
                max_consecutive_wins := (maxStreaks (profitsOf trade_history)).1
                max_consecutive_losses := (maxStreaks (profitsOf trade_history)).2 }

/-- Embeds `BacktestEngine.run_backtest`: extract the trading-day set,
return the all-zero metrics when it is empty, otherwise fold the daily
simulation (recording each day's total value) and hand the ledger to
`calculate_metrics`. -/
noncomputable def runBacktest (cfg : EngineCfg) (strategy : Strategy)
    (data : List (String × List Row)) (start_date end_date : ℕ) :
    Except String BacktestMetrics :=
  let trading_dates := tradingDates data start_date end_date
  if trading_dates.isEmpty then Except.ok {}
  else
    let ticker_data := data.map
      (fun e => (e.1, e.2.mergeSort (fun a b => decide (a.date ≤ b.date))))
    let result := trading_dates.foldl
      (fun s d =>
        let p := simulateDay cfg strategy ticker_data s.1 d
        (p, s.2 ++ [calcTotalValue ticker_data p d]))
      (Portfolio.init cfg.initial_cash, ([] : List ℚ))
    calculateMetrics result.1.trade_history result.2 cfg.initial_cash
      trading_dates.length

/-! ## Derived notions used by the statements -/

/-- A sequence of buys applied to a position (each `(quantity, price)` pair
is one successful fill routed to `update_on_buy`). -/
def buysFold (pos : Position) (l : List (ℤ × ℚ)) : Position :=
  l.foldl (fun pos e => pos.update_on_buy e.1 e.2) pos

/-- The position invariant of the spec: quantities are non-negative and a
flat position has a cleared cost basis and buy count. -/
def PosInv (pos : Position) : Prop :=
  0 ≤ pos.quantity ∧ (pos.quantity = 0 → pos.avg_price = 0 ∧ pos.buy_count = 0)

/-- The ledger-wide position invariant. -/
def LedgerInv (p : Portfolio) : Prop := ∀ e ∈ p.positions, PosInv e.2

/-- One ledger operation: the arguments of `execute_buy` / `execute_sell`. -/
inductive LedgerOp where
  | buy (ticker : String) (quantity : ℤ) (price commission : ℚ) (date reason : String)
  | sell (ticker : String) (quantity : ℤ) (price commission tax : ℚ) (date reason : String)

/-- Run one ledger operation (the returned boolean is dropped, as the
engine does on rejection). -/
def applyOp (p : Portfolio) : LedgerOp → Portfolio
  | LedgerOp.buy t q pr c d r => (p.execute_buy t q pr c d r).2
  | LedgerOp.sell t q pr c tx d r => (p.execute_sell t q pr c tx d r).2

/-- Run a sequence of ledger operations. -/
def applyOps (p : Portfolio) (ops : List LedgerOp) : Portfolio :=
  ops.foldl applyOp p

/-- A sell whose proceeds `price × quantity − commission − tax` are
non-negative (always true for engine-generated costs with
`commissionRate + taxRate ≤ 1`); buys are unrestricted. -/
def sellRevenueOk : LedgerOp → Prop
  | LedgerOp.buy _ _ _ _ _ _ => True
  | LedgerOp.sell _ q pr c tx _ _ => c + tx ≤ pr * (q : ℚ)

/-- The drawdown series of the spec: walk the list with the running peak,
emitting `(peak − value) / peak × 100` at every element. -/
def drawdownsSpec (peak : ℚ) : List ℚ → List ℚ
  | [] => []
  | v :: rest =>
      let pk := max peak v
      ((pk - v) / pk * 100) :: drawdownsSpec pk rest

/-- The spec's maximum drawdown: the maximum of the drawdown series (0 for
the empty series). -/
def maxDrawdownSpec (v : List ℚ) : ℚ :=
  match v with
  | [] => 0
  | v0 :: _ => (drawdownsSpec v0 v).foldl max 0

/-- A small concrete trade history: one buy and three sells with profits
5, −2 and 0. -/
def exampleTrades : List TradeRecord :=
  [{ date := "d1", ticker := "A", side := "buy", quantity := 1, price := 10 },
   { date := "d2", ticker := "A", side := "sell", quantity := 1, price := 15, profit := 5 },
   { date := "d3", ticker := "A", side := "sell", quantity := 1, price := 8, profit := -2 },
   { date := "d4", ticker := "A", side := "sell", quantity := 1, price := 10, profit := 0 }]

/-! ## Helper lemmas -/

lemma lookupPosition_cash (p : Portfolio) (t : String) (x : ℚ) :
    ({ p with cash := x } : Portfolio).lookupPosition t = p.lookupPosition t := rfl

lemma mem_updateEntry {l : List (String × Position)} {t : String} {pos : Position}
    {e : String × Position} (he : e ∈ updateEntry l t pos) : e.2 = pos ∨ e ∈ l := by
  induction l with
  | nil => simp [updateEntry] at he
  | cons hd tl ih =>
      simp only [updateEntry] at he
      by_cases h : hd.1 == t
      · rw [if_pos h] at he
        rcases List.mem_cons.mp he with he | he
        · left; rw [he]
        · right; exact List.mem_cons_of_mem _ he
      · rw [if_neg h] at he
        rcases List.mem_cons.mp he with he | he
        · right; rw [he]; exact List.mem_cons_self _ _
        · rcases ih he with h2 | h2
          · left; exact h2
          · right; exact List.mem_cons_of_mem _ h2

lemma get_position_of_some {p : Portfolio} {t : String} {pos : Position}
    (h : p.lookupPosition t = some pos) : p.get_position t = (pos, p) := by
  simp [Portfolio.get_position, h]

lemma get_position_of_none {p : Portfolio} {t : String}
    (h : p.lookupPosition t = none) :
    p.get_position t =
      (({ ticker := t } : Position),
       { p with positions := p.positions ++ [(t, { ticker := t })] }) := by
  simp [Portfolio.get_position, h]

/-! ## Claim C1 -/

/-- Claim C1 (no-look-ahead): every row of the point-in-time view handed to
the strategy is dated at most the simulated day; a ticker with no row dated
exactly the simulated day is skipped — the portfolio is returned untouched;
and the daily simulation depends on the strategy only through its value on
the point-in-time view (rows dated after the day can never influence it). -/
theorem no_look_ahead :
    (∀ (df : List Row) (d : ℕ) (r : Row), r ∈ pointInTimeView df d → r.date ≤ d) ∧
    (∀ (cfg : EngineCfg) (strategy : Strategy) (p : Portfolio) (ticker : String)
        (df : List Row) (d : ℕ), df.filter (fun r => r.date = d) = [] →
        simulateDayTicker cfg strategy p ticker df d = p) ∧
    (∀ (cfg : EngineCfg) (s1 s2 : Strategy) (p : Portfolio) (ticker : String)
        (df : List Row) (d : ℕ),
        s1.split_count = s2.split_count →
        (∀ pi cash, s1.generate_signal (pointInTimeView df d) pi cash =
          s2.generate_signal (pointInTimeView df d) pi cash) →
        simulateDayTicker cfg s1 p ticker df d =
          simulateDayTicker cfg s2 p ticker df d) := by
  refine ⟨?_, ?_, ?_⟩
  · intro df d r hr
    have hmem : r ∈ df.filter (fun r => r.date ≤ d) := by
      simpa [pointInTimeView, tailN] using List.mem_of_mem_drop hr
    simpa using (List.mem_filter.mp hmem).2
  · intro cfg strategy p ticker df d h
    simp [simulateDayTicker, h]
  · intro cfg s1 s2 p ticker df d hsc hsig
    simp only [pointInTimeView] at hsig
    simp only [simulateDayTicker]
    by_cases he : (df.filter (fun r => r.date ≤ d)).isEmpty
    · simp [he]
    · simp only [he, if_false]
      cases htoday : df.filter (fun r => r.date = d) with
      | nil => rfl
      | cons today rest => rw [hsc, hsig]

/-- Witness for C1 on a concrete series: day 5 has no row, so the day is a
no-op for any strategy; and the view on day 4 sees only dates `≤ 4`. -/
theorem no_look_ahead_witness :
    ([⟨3, 10⟩, ⟨4, 11⟩, ⟨6, 12⟩] : List Row).filter (fun r => r.date = 5) = [] ∧
    simulateDayTicker defaultCfg ⟨5, fun _ pi _ => { signal_type := SignalType.hold, ticker := pi.ticker }⟩
      (Portfolio.init 100) "A" [⟨3, 10⟩, ⟨4, 11⟩, ⟨6, 12⟩] 5 = Portfolio.init 100 ∧
    (∀ r : Row, r ∈ pointInTimeView [⟨3, 10⟩, ⟨4, 11⟩, ⟨6, 12⟩] 4 → r.date ≤ 4) := by
  refine ⟨by decide, ?_, ?_⟩
  · exact no_look_ahead.2.1 defaultCfg _ (Portfolio.init 100) "A" _ 5 (by decide)
  · intro r hr
    exact no_look_ahead.1 _ 4 r hr

/-! ## Claim C2 -/

/-- Claim C2 (amended, atomic rejection): a buy whose total cost exceeds the
cash returns `false` and leaves the whole ledger unchanged; a sell of more
than the held quantity returns `false` and leaves cash and trade history
unchanged, and leaves the positions mapping unchanged when the ticker is
already present — when it is absent, the rejected sell still inserts a fresh
zero-quantity entry (the one deviation from the original claim). -/
theorem atomic_rejection :
    (∀ (p : Portfolio) (t : String) (q : ℤ) (pr c : ℚ) (d r : String),
        pr * (q : ℚ) + c > p.cash →
        p.execute_buy t q pr c d r = (false, p)) ∧
    (∀ (p : Portfolio) (t : String) (q : ℤ) (pr c tx : ℚ) (d r : String)
        (pos : Position), p.lookupPosition t = some pos → pos.quantity < q →
        p.execute_sell t q pr c tx d r = (false, p)) ∧
    (∀ (p : Portfolio) (t : String) (q : ℤ) (pr c tx : ℚ) (d r : String),
        p.lookupPosition t = none → 0 < q →
        p.execute_sell t q pr c tx d r =
          (false, { p with positions := p.positions ++ [(t, { ticker := t })] })) := by
  refine ⟨?_, ?_, ?_⟩
  · intro p t q pr c d r h
    simp [Portfolio.execute_buy, h]
  · intro p t q pr c tx d r pos hl hq
    simp [Portfolio.execute_sell, get_position_of_some hl, hq]
  · intro p t q pr c tx d r hl hq
    have : (({ ticker := t } : Position)).quantity < q := hq
    simp [Portfolio.execute_sell, get_position_of_none hl, this]

/-- Witness for C2: concrete rejected buy and sells, both for a present and
an absent ticker. -/
theorem atomic_rejection_witness :
    (Portfolio.init 10).execute_buy "A" 1 20 0 "d" "r" = (false, Portfolio.init 10) ∧
    (Portfolio.init 10).execute_sell "A" 1 5 0 0 "d" "r" =
      (false, { Portfolio.init 10 with positions := [("A", { ticker := "A" })] }) := by
  constructor
  · exact atomic_rejection.1 (Portfolio.init 10) "A" 1 20 0 "d" "r" (by norm_num [Portfolio.init])
  · have := atomic_rejection.2.2 (Portfolio.init 10) "A" 1 5 0 0 "d" "r" (by decide) (by decide)
    simpa [Portfolio.init] using this

/-- Counterexample to C2 as stated: a rejected sell on a ticker that is not
in the positions mapping does not leave the mapping unchanged — it inserts
a fresh entry. -/
theorem atomic_rejection_counterexample :
    ((Portfolio.init 10).execute_sell "A" 1 5 0 0 "d" "r").1 = false ∧
    ((Portfolio.init 10).execute_sell "A" 1 5 0 0 "d" "r").2.positions ≠
      (Portfolio.init 10).positions := by
  constructor
  · decide
  · decide

/-! ## Claim C10 -/

/-- Claim C10 (frame effect of a rejected sell on an absent ticker): the
holdings check goes through the lazily-creating `get_position`, so the
rejected sell returns `false`, leaves cash and trade history unchanged, but
inserts a fresh zero-quantity position entry for the ticker. -/
theorem rejected_sell_inserts_fresh_position
    (p : Portfolio) (t : String) (q : ℤ) (pr c tx : ℚ) (d r : String)
    (hl : p.lookupPosition t = none) (hq : 0 < q) :
    (p.execute_sell t q pr c tx d r).1 = false ∧
    (p.execute_sell t q pr c tx d r).2.cash = p.cash ∧
    (p.execute_sell t q pr c tx d r).2.trade_history = p.trade_history ∧
    (p.execute_sell t q pr c tx d r).2.positions =
      p.positions ++ [(t, { ticker := t })] ∧
    (({ ticker := t } : Position)).quantity = 0 := by
  have : (({ ticker := t } : Position)).quantity < q := hq
  simp [Portfolio.execute_sell, get_position_of_none hl, this]

/-- Witness for C10 at a concrete ledger. -/
theorem rejected_sell_inserts_fresh_position_witness :
    ((Portfolio.init 7).execute_sell "B" 2 5 0 0 "d" "r").1 = false ∧
    ((Portfolio.init 7).execute_sell "B" 2 5 0 0 "d" "r").2.cash = 7 ∧
    ((Portfolio.init 7).execute_sell "B" 2 5 0 0 "d" "r").2.positions =
      [("B", { ticker := "B" })] := by
  have h := rejected_sell_inserts_fresh_position (Portfolio.init 7) "B" 2 5 0 0 "d" "r"
    (by decide) (by decide)
  exact ⟨h.1, h.2.1, by simpa [Portfolio.init] using h.2.2.2.1⟩

/-! ## Claim C6 -/

/-- Claim C6 (cost model): the engine books a buy at execution price
`close × (1 + slippageRate)` with commission
`executionPrice × quantity × commissionRate`, and a sell at
`close × (1 − slippageRate)` with the same commission formula and tax
`executionPrice × quantity × taxRate`; with the default rates, buying 10
units at close 1000 executes at 1001 with commission 1.5015 and a total
cash debit of 10011.5015. -/
theorem cost_model :
    (∀ (cfg : EngineCfg) (p : Portfolio) (t : String) (q : ℤ) (c : ℚ) (d r : String),
        engineExecuteBuy cfg p t q c d r =
          (p.execute_buy t q (c * (1 + cfg.slippage_rate))
            (c * (1 + cfg.slippage_rate) * (q : ℚ) * cfg.commission_rate) d r).2) ∧
    (∀ (cfg : EngineCfg) (p : Portfolio) (t : String) (q : ℤ) (c : ℚ) (d r : String),
        engineExecuteSell cfg p t q c d r =
          (p.execute_sell t q (c * (1 - cfg.slippage_rate))
            (c * (1 - cfg.slippage_rate) * (q : ℚ) * cfg.commission_rate)
            (c * (1 - cfg.slippage_rate) * (q : ℚ) * cfg.tax_rate) d r).2) ∧
    (1000 * (1 + defaultCfg.slippage_rate) = (1001 : ℚ)) ∧
    (1000 * (1 + defaultCfg.slippage_rate) * (10 : ℚ) * defaultCfg.commission_rate
      = 15015 / 10000) ∧
    ((engineExecuteBuy defaultCfg (Portfolio.init 10000000) "A" 10 1000 "d" "r").cash
      = 10000000 - 100115015 / 10000) ∧
    ((engineExecuteBuy defaultCfg (Portfolio.init 10000000) "A" 10 1000 "d" "r").trade_history.map
        (fun tr => (tr.price, tr.commission)) = [((1001 : ℚ), (15015 / 10000 : ℚ))]) := by
  refine ⟨fun _ _ _ _ _ _ _ => rfl, fun _ _ _ _ _ _ _ => rfl, by norm_num [defaultCfg],
    by norm_num [defaultCfg], ?_, ?_⟩
  · norm_num [engineExecuteBuy, Portfolio.execute_buy, Portfolio.init, defaultCfg,
      Portfolio.get_position, Portfolio.lookupPosition, updateEntry, Position.update_on_buy]
  · norm_num [engineExecuteBuy, Portfolio.execute_buy, Portfolio.init, defaultCfg,
      Portfolio.get_position, Portfolio.lookupPosition, updateEntry, Position.update_on_buy]

/-! ## Claim C3 -/

lemma get_position_cash (p : Portfolio) (t : String) :
    (p.get_position t).2.cash = p.cash := by
  unfold Portfolio.get_position
  cases h : p.lookupPosition t <;> simp [h]

lemma get_position_positions (p : Portfolio) (t : String) :
    (p.get_position t).2.positions = p.positions ∨
    (p.get_position t).2.positions = p.positions ++ [(t, { ticker := t })] := by
  unfold Portfolio.get_position
  cases h : p.lookupPosition t <;> simp [h]

lemma execute_buy_cash (p : Portfolio) (t : String) (q : ℤ) (pr c : ℚ) (d r : String) :
    (p.execute_buy t q pr c d r).2.cash =
      if pr * (q : ℚ) + c > p.cash then p.cash else p.cash - (pr * (q : ℚ) + c) := by
  by_cases h : pr * (q : ℚ) + c > p.cash
  · simp [Portfolio.execute_buy, h]
  · simp only [Portfolio.execute_buy, Portfolio.get_position, lookupPosition_cash]
    cases hl : p.lookupPosition t <;> simp [h, hl]

lemma execute_sell_cash (p : Portfolio) (t : String) (q : ℤ) (pr c tx : ℚ) (d r : String) :
    (p.execute_sell t q pr c tx d r).2.cash =
      if (p.get_position t).1.quantity < q then p.cash
      else p.cash + (pr * (q : ℚ) - c - tx) := by
  by_cases h : (p.get_position t).1.quantity < q
  · simp [Portfolio.execute_sell, h, get_position_cash]
  · simp only [Portfolio.execute_sell, h, if_neg, if_false]
    split <;> split <;> simp [h, get_position_cash]

/-- Claim C3 (amended): starting from non-negative cash, any sequence of
ledger operations in which every sell's commission plus tax is at most its
gross proceeds keeps cash non-negative — buys that would overdraw are
rejected; sells, which the code does not guard, credit a non-negative
amount under the hypothesis. -/
theorem cash_stays_nonneg (ops : List LedgerOp) (p : Portfolio)
    (hp : 0 ≤ p.cash) (hops : ∀ op ∈ ops, sellRevenueOk op) :
    0 ≤ (applyOps p ops).cash := by
  induction ops generalizing p with
  | nil => simpa [applyOps] using hp
  | cons op rest ih =>
      have hstep : 0 ≤ (applyOp p op).cash := by
        cases op with
        | buy t q pr c d r =>
            simp only [applyOp, execute_buy_cash]
            split
            · exact hp
            · linarith [not_lt.mp (by assumption : ¬pr * (q : ℚ) + c > p.cash)]
        | sell t q pr c tx d r =>
            have hrev : c + tx ≤ pr * (q : ℚ) := hops _ (List.mem_cons_self _ _)
            simp only [applyOp, execute_sell_cash]
            split
            · exact hp
            · linarith
      have : applyOps p (op :: rest) = applyOps (applyOp p op) rest := rfl
      rw [this]
      exact ih _ hstep (fun o ho => hops o (List.mem_cons_of_mem _ ho))

/-- Witness for C3 at a concrete sequence: a funded buy then a sell whose
costs do not exceed its proceeds. -/
theorem cash_stays_nonneg_witness :
    (∀ op ∈ [LedgerOp.buy "A" 1 50 0 "d" "r", LedgerOp.sell "A" 1 60 1 1 "d" "r"],
      sellRevenueOk op) ∧
    0 ≤ (applyOps (Portfolio.init 100)
      [LedgerOp.buy "A" 1 50 0 "d" "r", LedgerOp.sell "A" 1 60 1 1 "d" "r"]).cash := by
  have h : ∀ op ∈ [LedgerOp.buy "A" 1 50 0 "d" "r", LedgerOp.sell "A" 1 60 1 1 "d" "r"],
      sellRevenueOk op := by
    intro op hop
    rcases List.mem_cons.mp hop with h | h
    · rw [h]; trivial
    · rcases List.mem_cons.mp h with h | h
      · rw [h]; show (1 : ℚ) + 1 ≤ 60 * ((1 : ℤ) : ℚ); norm_num
      · simp at h
  exact ⟨h, cash_stays_nonneg _ (Portfolio.init 100) (by norm_num [Portfolio.init]) h⟩

/-- Counterexample to C3 as stated: the code never guards sells, so a sell
whose commission exceeds its proceeds drives cash negative (buy 1 unit at
100 consuming all cash, then sell it at price 1 with commission 10). -/
theorem cash_stays_nonneg_counterexample :
    0 ≤ (Portfolio.init 100).cash ∧
    (applyOps (Portfolio.init 100)
      [LedgerOp.buy "A" 1 100 0 "d" "r", LedgerOp.sell "A" 1 1 10 0 "d" "r"]).cash < 0 := by
  constructor
  · norm_num [Portfolio.init]
  · norm_num [applyOps, applyOp, Portfolio.execute_buy, Portfolio.execute_sell,
      Portfolio.init, Portfolio.get_position, Portfolio.lookupPosition, updateEntry,
      Position.update_on_buy, Position.update_on_sell]
    split <;> norm_num

/-! ## Claim C4 -/

lemma update_on_buy_quantity (pos : Position) (q : ℤ) (price : ℚ) :
    (pos.update_on_buy q price).quantity = pos.quantity + q := rfl

lemma update_on_buy_cost (pos : Position) (q : ℤ) (price : ℚ)
    (h : 0 < pos.quantity + q) :
    (pos.update_on_buy q price).avg_price * ((pos.quantity + q : ℤ) : ℚ) =
      pos.avg_price * (pos.quantity : ℚ) + price * (q : ℚ) := by
  simp only [Position.update_on_buy]
  rw [if_pos h]
  have hne : ((pos.quantity + q : ℤ) : ℚ) ≠ 0 := by
    exact_mod_cast Int.ne_of_gt h
  exact div_mul_cancel₀ _ hne

lemma buysFold_spec (l : List (ℤ × ℚ)) :
    ∀ pos : Position, (∀ e ∈ l, 0 < e.1) → 0 ≤ pos.quantity →
      (buysFold pos l).quantity = pos.quantity + (l.map (fun e => e.1)).sum ∧
      (buysFold pos l).avg_price * (((buysFold pos l).quantity : ℤ) : ℚ) =
        pos.avg_price * (pos.quantity : ℚ) + (l.map (fun e => e.2 * (e.1 : ℚ))).sum := by
  induction l with
  | nil => intro pos _ _; simp [buysFold]
  | cons hd tl ih =>
      intro pos hpos hq
      have hhd : 0 < hd.1 := hpos hd (List.mem_cons_self _ _)
      have hstep : 0 < pos.quantity + hd.1 := by omega
      have hq2 : 0 ≤ (pos.update_on_buy hd.1 hd.2).quantity := by
        rw [update_on_buy_quantity]; omega
      have hrest : ∀ e ∈ tl, 0 < e.1 := fun e he => hpos e (List.mem_cons_of_mem _ he)
      have hfold : buysFold pos (hd :: tl) = buysFold (pos.update_on_buy hd.1 hd.2) tl := rfl
      rcases ih (pos.update_on_buy hd.1 hd.2) hrest hq2 with ⟨ihq, ihc⟩
      constructor
      · rw [hfold, ihq, update_on_buy_quantity]
        simp [add_assoc]
      · rw [hfold, ihc, update_on_buy_quantity, update_on_buy_cost pos hd.1 hd.2 hstep]
        simp
        ring

/-- Claim C4 (weighted-average cost): after any non-empty sequence of
positive-quantity buys on a fresh position, `avg_price` is the
quantity-weighted mean of the execution prices; one buy follows the
recurrence `newAvgCost = (oldAvgCost × oldQty + price × qty) / (oldQty + qty)`;
and merging two buys into one of the combined quantity at the weighted
price yields the same average cost. -/
theorem avg_cost_weighted_mean :
    (∀ (pos : Position) (q : ℤ) (price : ℚ), 0 < pos.quantity + q →
        (pos.update_on_buy q price).avg_price =
          (pos.avg_price * (pos.quantity : ℚ) + price * (q : ℚ)) /
            ((pos.quantity + q : ℤ) : ℚ)) ∧
    (∀ (t : String) (l : List (ℤ × ℚ)), (∀ e ∈ l, 0 < e.1) → l ≠ [] →
        (buysFold ({ ticker := t } : Position) l).quantity = (l.map (fun e => e.1)).sum ∧
        (buysFold ({ ticker := t } : Position) l).avg_price =
          (l.map (fun e => e.2 * (e.1 : ℚ))).sum / (((l.map (fun e => e.1)).sum : ℤ) : ℚ)) ∧
    (∀ (t : String) (q1 q2 : ℤ) (p1 p2 : ℚ), 0 < q1 → 0 < q2 →
        (buysFold ({ ticker := t } : Position) [(q1, p1), (q2, p2)]).avg_price =
          (buysFold ({ ticker := t } : Position)
            [(q1 + q2, (p1 * (q1 : ℚ) + p2 * (q2 : ℚ)) / ((q1 + q2 : ℤ) : ℚ))]).avg_price) := by
  have hmain : ∀ (t : String) (l : List (ℤ × ℚ)), (∀ e ∈ l, 0 < e.1) → l ≠ [] →
      (buysFold ({ ticker := t } : Position) l).quantity = (l.map (fun e => e.1)).sum ∧
      (buysFold ({ ticker := t } : Position) l).avg_price =
        (l.map (fun e => e.2 * (e.1 : ℚ))).sum / (((l.map (fun e => e.1)).sum : ℤ) : ℚ) := by
    intro t l hl hne
    rcases buysFold_spec l ({ ticker := t } : Position) hl (by norm_num) with ⟨hq, hc⟩
    have hq0 : ({ ticker := t } : Position).quantity = 0 := rfl
    have hsum : 0 < (l.map (fun e => e.1)).sum := by
      apply List.sum_pos
      · intro x hx
        rcases List.mem_map.mp hx with ⟨e, he, hex⟩
        rw [← hex]; exact hl e he
      · simpa using hne
    have hq' : (buysFold ({ ticker := t } : Position) l).quantity =
        (l.map (fun e => e.1)).sum := by rw [hq, hq0, zero_add]
    refine ⟨hq', ?_⟩
    have hne' : (((l.map (fun e => e.1)).sum : ℤ) : ℚ) ≠ 0 := by
      exact_mod_cast Int.ne_of_gt hsum
    rw [hq'] at hc
    rw [eq_div_iff hne']
    rw [hc, hq0]
    simp
  refine ⟨?_, hmain, ?_⟩
  · intro pos q price h
    simp only [Position.update_on_buy]
    rw [if_pos h]
  · intro t q1 q2 p1 p2 h1 h2
    have hl1 : ∀ e ∈ [((q1 : ℤ), p1), (q2, p2)], 0 < e.1 := by
      intro e he
      rcases List.mem_cons.mp he with h | h
      · rw [h]; exact h1
      · rcases List.mem_cons.mp h with h | h
        · rw [h]; exact h2
        · simp at h
    have hl2 : ∀ e ∈ [((q1 + q2 : ℤ), (p1 * (q1 : ℚ) + p2 * (q2 : ℚ)) / ((q1 + q2 : ℤ) : ℚ))],
        0 < e.1 := by
      intro e he
      rcases List.mem_cons.mp he with h | h
      · rw [h]; dsimp only; omega
      · simp at h
    rcases hmain t _ hl1 (by simp) with ⟨_, ha1⟩
    rcases hmain t _ hl2 (by simp) with ⟨_, ha2⟩
    rw [ha1, ha2]
    have hne : ((q1 : ℚ) + (q2 : ℚ)) ≠ 0 := by
      have : (0 : ℚ) < (q1 : ℚ) + (q2 : ℚ) := by
        exact_mod_cast (by omega : (0 : ℤ) < q1 + q2)
      linarith
    simp only [List.map_cons, List.map_nil, List.sum_cons, List.sum_nil, add_zero]
    push_cast
    rw [div_mul_cancel₀ _ hne]

/-- Witness for C4: buys of 1 unit at 10 and 3 units at 20 give average
cost (10 + 60) / 4 = 17.5. -/
theorem avg_cost_weighted_mean_witness :
    (∀ e ∈ [((1 : ℤ), (10 : ℚ)), (3, 20)], 0 < e.1) ∧
    (buysFold ({ ticker := "A" } : Position) [(1, 10), (3, 20)]).avg_price = 35 / 2 := by
  have hl : ∀ e ∈ [((1 : ℤ), (10 : ℚ)), (3, 20)], 0 < e.1 := by decide
  refine ⟨hl, ?_⟩
  have h := (avg_cost_weighted_mean.2.1 "A" [(1, 10), (3, 20)] hl (by simp)).2
  rw [h]
  norm_num

/-! ## Claim C5 -/

lemma lookup_mem {p : Portfolio} {t : String} {pos : Position}
    (h : p.lookupPosition t = some pos) : ∃ k, (k, pos) ∈ p.positions := by
  unfold Portfolio.lookupPosition at h
  cases hf : p.positions.find? (fun e => e.1 == t) with
  | none => rw [hf] at h; simp at h
  | some e =>
      rw [hf] at h
      have h2 : e.2 = pos := by simpa using h
      have hmem : e ∈ p.positions := List.mem_of_find?_eq_some hf
      refine ⟨e.1, ?_⟩
      rw [← h2]
      exact hmem

lemma update_on_buy_posInv (pos : Position) (q : ℤ) (price : ℚ) (hq : 0 < q)
    (h : 0 ≤ pos.quantity) : PosInv (pos.update_on_buy q price) := by
  unfold PosInv
  rw [update_on_buy_quantity]
  exact ⟨by omega, fun h0 => absurd h0 (by omega)⟩

lemma update_on_sell_posInv (pos : Position) (q : ℤ) (_h : 0 ≤ pos.quantity) :
    PosInv (pos.update_on_sell q) := by
  unfold PosInv Position.update_on_sell
  by_cases hc : q > pos.quantity
  · simp only [if_pos hc, sub_self, if_pos rfl]
    exact ⟨le_refl 0, fun _ => ⟨rfl, rfl⟩⟩
  · simp only [if_neg hc]
    by_cases h0 : pos.quantity - q = 0
    · rw [if_pos h0]
      exact ⟨le_refl 0, fun _ => ⟨rfl, rfl⟩⟩
    · rw [if_neg h0]
      refine ⟨?_, fun hq0 => absurd hq0 h0⟩
      show (0 : ℤ) ≤ pos.quantity - q
      omega

lemma update_on_sell_full (pos : Position) :
    (pos.update_on_sell pos.quantity).quantity = 0 ∧
    (pos.update_on_sell pos.quantity).avg_price = 0 ∧
    (pos.update_on_sell pos.quantity).buy_count = 0 := by
  simp [Position.update_on_sell]

lemma fresh_posInv (t : String) : PosInv ({ ticker := t } : Position) :=
  ⟨le_refl 0, fun _ => ⟨rfl, rfl⟩⟩

lemma execute_buy_positions (p : Portfolio) (t : String) (q : ℤ) (pr c : ℚ)
    (d r : String) (h : ¬(pr * (q : ℚ) + c > p.cash)) :
    (p.execute_buy t q pr c d r).2.positions =
      updateEntry (p.get_position t).2.positions t
        ((p.get_position t).1.update_on_buy q pr) := by
  simp only [Portfolio.execute_buy, Portfolio.get_position, lookupPosition_cash]
  cases hl : p.lookupPosition t <;> simp [h, hl]

lemma execute_sell_reject (p : Portfolio) (t : String) (q : ℤ) (pr c tx : ℚ)
    (d r : String) (h : (p.get_position t).1.quantity < q) :
    (p.execute_sell t q pr c tx d r).2 = (p.get_position t).2 := by
  simp [Portfolio.execute_sell, h]

lemma execute_sell_positions (p : Portfolio) (t : String) (q : ℤ) (pr c tx : ℚ)
    (d r : String) (h : ¬((p.get_position t).1.quantity < q)) :
    (p.execute_sell t q pr c tx d r).2.positions =
      updateEntry (p.get_position t).2.positions t
        ((p.get_position t).1.update_on_sell q) := by
  simp only [Portfolio.execute_sell, h, if_false]
  split <;> split <;> rfl

lemma get_position_inv {p : Portfolio} {t : String} (hinv : LedgerInv p) :
    PosInv (p.get_position t).1 ∧ LedgerInv (p.get_position t).2 := by
  unfold Portfolio.get_position
  cases hl : p.lookupPosition t with
  | some pos =>
      obtain ⟨k, hk⟩ := lookup_mem hl
      exact ⟨hinv _ hk, hinv⟩
  | none =>
      refine ⟨fresh_posInv t, ?_⟩
      intro e he
      rcases List.mem_append.mp he with h2 | h2
      · exact hinv e h2
      · have : e = (t, { ticker := t }) := by simpa using h2
        rw [this]
        exact fresh_posInv t

/-- Claim C5 (amended): every ledger operation with a positive buy quantity
(sells unrestricted) preserves the position invariant
`quantity = 0 → avgCost = 0 ∧ buyCount = 0` (together with `0 ≤ quantity`),
both at the position and at the whole-ledger level; and selling the entire
held quantity always resets quantity, average cost and buy count to zero.
The positivity restriction on buys is forced: the code accepts a
zero-quantity buy and it breaks the invariant. -/
theorem position_invariant_preserved :
    (∀ (pos : Position) (q : ℤ) (price : ℚ), 0 < q → PosInv pos →
        PosInv (pos.update_on_buy q price)) ∧
    (∀ (pos : Position) (q : ℤ), PosInv pos → PosInv (pos.update_on_sell q)) ∧
    (∀ pos : Position, (pos.update_on_sell pos.quantity).quantity = 0 ∧
        (pos.update_on_sell pos.quantity).avg_price = 0 ∧
        (pos.update_on_sell pos.quantity).buy_count = 0) ∧
    (∀ (p : Portfolio) (t : String) (q : ℤ) (pr c : ℚ) (d r : String), 0 < q →
        LedgerInv p → LedgerInv (p.execute_buy t q pr c d r).2) ∧
    (∀ (p : Portfolio) (t : String) (q : ℤ) (pr c tx : ℚ) (d r : String),
        LedgerInv p → LedgerInv (p.execute_sell t q pr c tx d r).2) := by
  refine ⟨?_, ?_, update_on_sell_full, ?_, ?_⟩
  · intro pos q price hq hpos
    exact update_on_buy_posInv pos q price hq hpos.1
  · intro pos q hpos
    exact update_on_sell_posInv pos q hpos.1
  · intro p t q pr c d r hq hinv
    by_cases hcost : pr * (q : ℚ) + c > p.cash
    · have : (p.execute_buy t q pr c d r).2 = p := by
        simp [Portfolio.execute_buy, hcost]
      rw [this]; exact hinv
    · intro e he
      rw [execute_buy_positions p t q pr c d r hcost] at he
      rcases mem_updateEntry he with h2 | h2
      · rw [h2]
        exact update_on_buy_posInv _ q pr hq (get_position_inv hinv).1.1
      · exact (get_position_inv hinv).2 e h2
  · intro p t q pr c tx d r hinv
    by_cases hheld : (p.get_position t).1.quantity < q
    · rw [execute_sell_reject p t q pr c tx d r hheld]
      exact (get_position_inv hinv).2
    · intro e he
      rw [execute_sell_positions p t q pr c tx d r hheld] at he
      rcases mem_updateEntry he with h2 | h2
      · rw [h2]
        exact update_on_sell_posInv _ q (get_position_inv hinv).1.1
      · exact (get_position_inv hinv).2 e h2

/-- Witness for C5: a concrete funded buy of 2 units and a concrete sell
both preserve the ledger invariant starting from a fresh ledger. -/
theorem position_invariant_preserved_witness :
    (0 : ℤ) < 2 ∧ LedgerInv (Portfolio.init 100) ∧
    LedgerInv ((Portfolio.init 100).execute_buy "A" 2 10 0 "d" "r").2 ∧
    LedgerInv ((Portfolio.init 100).execute_sell "A" 1 10 0 0 "d" "r").2 := by
  have hinv : LedgerInv (Portfolio.init 100) := by
    intro e he
    simp [Portfolio.init] at he
  exact ⟨by decide, hinv,
    position_invariant_preserved.2.2.2.1 (Portfolio.init 100) "A" 2 10 0 "d" "r"
      (by decide) hinv,
    position_invariant_preserved.2.2.2.2 (Portfolio.init 100) "A" 1 10 0 0 "d" "r" hinv⟩

/-- Counterexample to C5 as stated: the ledger accepts a zero-quantity buy
(`execute_buy` has no quantity check), which leaves the position flat but
increments `buy_count` to 1, violating
`quantity = 0 → avgCost = 0 ∧ buyCount = 0`. -/
theorem position_invariant_counterexample :
    ((Portfolio.init 100).execute_buy "A" 0 5 0 "d" "r").1 = true ∧
    (((Portfolio.init 100).execute_buy "A" 0 5 0 "d" "r").2.lookupPosition "A").map
      (fun pos => (pos.quantity, pos.buy_count)) = some ((0 : ℤ), (1 : ℕ)) ∧
    ¬ LedgerInv ((Portfolio.init 100).execute_buy "A" 0 5 0 "d" "r").2 := by
  have hres1 : ((Portfolio.init 100).execute_buy "A" 0 5 0 "d" "r").1 = true := by
    norm_num [Portfolio.execute_buy, Portfolio.init]
  have hres : ((Portfolio.init 100).execute_buy "A" 0 5 0 "d" "r").2 =
      { initial_cash := 100, cash := 100, positions := [("A", { ticker := "A", quantity := 0, avg_price := 0, buy_count := 1, total_invested := 0 })], trade_history := [{ date := "d", ticker := "A", side := "buy", quantity := 0, price := 5, commission := 0, tax := 0, profit := 0, profit_rate := 0, reason := "r" }], daily_loss := 0, last_trade_date := "" } := by
    norm_num [Portfolio.execute_buy, Portfolio.init, Portfolio.get_position,
      Portfolio.lookupPosition, updateEntry, Position.update_on_buy]
  refine ⟨hres1, by rw [hres]; rfl, ?_⟩
  rw [hres]
  intro hinv
  have hmem := hinv ("A", { ticker := "A", quantity := 0, avg_price := 0, buy_count := 1, total_invested := 0 }) (by simp)
  exact absurd (hmem.2 rfl).2 (by decide)

/-! ## Claim C7 -/

/-- Claim C7 (degenerate input): `calculate_metrics` on an empty
daily-valuation list returns the all-zero metrics record (never an
exception), and a run whose window has no trading days returns the same
all-zero metrics. -/
theorem empty_metrics :
    (∀ (th : List TradeRecord) (c : ℚ) (n : ℕ),
        calculateMetrics th [] c n = Except.ok ({} : BacktestMetrics)) ∧
    (∀ (cfg : EngineCfg) (strategy : Strategy) (data : List (String × List Row))
        (s e : ℕ), tradingDates data s e = [] →
        runBacktest cfg strategy data s e = Except.ok ({} : BacktestMetrics)) := by
  constructor
  · intro th c n
    rfl
  · intro cfg strategy data s e h
    simp [runBacktest, h]

/-- Witness for C7: an empty data map has no trading days and yields the
all-zero metrics. -/
theorem empty_metrics_witness :
    tradingDates [] 0 0 = [] ∧
    runBacktest defaultCfg
      ⟨5, fun _ pi _ => { signal_type := SignalType.hold, ticker := pi.ticker }⟩
      [] 0 0 = Except.ok ({} : BacktestMetrics) := by
  have h : tradingDates [] 0 0 = [] := by simp [tradingDates]
  exact ⟨h, empty_metrics.2 defaultCfg _ [] 0 0 h⟩

/-! ## Claim C8 -/

lemma if_gt_max (a b : ℚ) : (if b > a then b else a) = max a b := by
  rcases le_or_lt b a with h | h
  · rw [if_neg (not_lt.mpr h), max_eq_left h]
  · rw [if_pos h, max_eq_right h.le]

lemma mddGo_spec (l : List ℚ) :
    ∀ peak acc : ℚ, 0 < peak →
      mddGo peak acc l = Except.ok ((drawdownsSpec peak l).foldl max acc) := by
  induction l with
  | nil => intro peak acc _; rfl
  | cons v rest ih =>
      intro peak acc hpeak
      have hpos : 0 < max peak v := lt_of_lt_of_le hpeak (le_max_left _ _)
      simp only [mddGo, divQ, if_gt_max peak v]
      rw [if_neg (ne_of_gt hpos)]
      simp only [drawdownsSpec, List.foldl_cons]
      rw [ih (max peak v) _ hpos, if_gt_max acc ((max peak v - v) / max peak v * 100)]

lemma mddGo_sorted (l : List ℚ) :
    ∀ peak : ℚ, l.Sorted (· ≤ ·) → (∀ x ∈ l, x ≠ 0) → (∀ x ∈ l, peak ≤ x) →
      mddGo peak 0 l = Except.ok 0 := by
  induction l with
  | nil => intro peak _ _ _; rfl
  | cons v rest ih =>
      intro peak hsort hnz hle
      have hpv : peak ≤ v := hle v (List.mem_cons_self _ _)
      have hpk : (if v > peak then v else peak) = v := by
        rw [if_gt_max peak v, max_eq_right hpv]
      have hvnz : v ≠ 0 := hnz v (List.mem_cons_self _ _)
      rcases List.sorted_cons.mp hsort with ⟨hvle, hrest⟩
      simp only [mddGo, divQ, hpk]
      rw [if_neg hvnz, sub_self, zero_div]
      show mddGo v (if (0 : ℚ) * 100 > 0 then (0 : ℚ) * 100 else 0) rest = Except.ok 0
      rw [zero_mul, if_neg (lt_irrefl 0)]
      exact ih v hrest (fun x hx => hnz x (List.mem_cons_of_mem _ hx)) hvle

/-- Claim C8 (amended): the metrics' maximum drawdown is exactly the
drawdown loop's result; for a series with positive first value it equals
the maximum over the series of `(runningPeak − value) / runningPeak × 100`;
it is 0 for an empty series and for a monotonically non-decreasing series
with no zero value (a running peak of exactly 0 makes the code divide by
zero, the one deviation from the original claim); and on
`[100, 120, 90, 110]` it is exactly 25. -/
theorem max_drawdown_correct :
    (∀ (th : List TradeRecord) (dv : List ℚ) (c : ℚ) (n : ℕ) (m : BacktestMetrics),
        calculateMetrics th dv c n = Except.ok m →
        maxDrawdownCalc dv = Except.ok m.max_drawdown) ∧
    (∀ (v0 : ℚ) (rest : List ℚ), 0 < v0 →
        maxDrawdownCalc (v0 :: rest) = Except.ok (maxDrawdownSpec (v0 :: rest))) ∧
    (maxDrawdownCalc ([] : List ℚ) = Except.ok 0) ∧
    (∀ v : List ℚ, v.Sorted (· ≤ ·) → (∀ x ∈ v, x ≠ 0) →
        maxDrawdownCalc v = Except.ok 0) ∧
    (maxDrawdownCalc [100, 120, 90, 110] = Except.ok 25) := by
  refine ⟨?_, ?_, rfl, ?_, ?_⟩
  · intro th dv c n m h
    cases dv with
    | nil =>
        have hm : ({} : BacktestMetrics) = m := by
          simpa [calculateMetrics] using h
        rw [← hm]
        rfl
    | cons v0 vrest =>
        simp only [calculateMetrics] at h
        split at h
        · exact absurd h (by simp)
        · split at h
          · exact absurd h (by simp)
          · rename maxDrawdownCalc _ = Except.ok _ => hmdd
            have hm := Except.ok.inj h
            rw [← hm]
            exact hmdd
  · intro v0 rest h
    have := mddGo_spec (v0 :: rest) v0 0 h
    rw [maxDrawdownCalc, this]
    rfl
  · intro v hsort hnz
    cases v with
    | nil => rfl
    | cons v0 rest =>
        rcases List.sorted_cons.mp hsort with ⟨hle, _⟩
        exact mddGo_sorted (v0 :: rest) v0 hsort hnz
          (by
            intro x hx
            rcases List.mem_cons.mp hx with h | h
            · rw [h]
            · exact hle x h)
  · norm_num [maxDrawdownCalc, mddGo, divQ]

/-- Witness for C8 on the spec scenario series (positive first value). -/
theorem max_drawdown_correct_witness :
    (0 : ℚ) < 100 ∧
    maxDrawdownCalc [100, 120, 90, 110] =
      Except.ok (maxDrawdownSpec [100, 120, 90, 110]) ∧
    maxDrawdownSpec [100, 120, 90, 110] = 25 := by
  refine ⟨by norm_num, max_drawdown_correct.2.1 100 [120, 90, 110] (by norm_num), ?_⟩
  norm_num [maxDrawdownSpec, drawdownsSpec]

/-- Counterexample to C8 as stated: `[0, 0]` is monotonically
non-decreasing, yet the code raises `ZeroDivisionError` (the running peak
is 0) instead of reporting drawdown 0. -/
theorem max_drawdown_counterexample :
    List.Sorted (· ≤ ·) [(0 : ℚ), 0] ∧
    maxDrawdownCalc [(0 : ℚ), 0] = Except.error "ZeroDivisionError" ∧
    maxDrawdownCalc [(0 : ℚ), 0] ≠ Except.ok 0 := by
  have herr : maxDrawdownCalc [(0 : ℚ), 0] = Except.error "ZeroDivisionError" := by
    norm_num [maxDrawdownCalc, mddGo, divQ]
  exact ⟨by simp, herr, by rw [herr]; simp⟩

/-! ## Claim C9 -/

lemma sellsOf_nil_losers {th : List TradeRecord} (h : sellsOf th = []) :
    losersOf th = [] := by
  simp [losersOf, profitsOf, h]

lemma sellsOf_nil_winners {th : List TradeRecord} (h : sellsOf th = []) :
    winnersOf th = [] := by
  simp [winnersOf, profitsOf, h]

/-- Claim C9 (trade-outcome statistics): the metrics' win rate and profit
factor come from sell-side records only; the win rate is the share of sells
with positive realized profit times 100; the profit factor is the sum of
winning profits over the absolute sum of non-positive profits when the
latter is non-zero, `+∞` (`⊤`) when there are winners and no losers, and 0
when there are no sells. -/
theorem trade_stats_correct :
    (∀ (th : List TradeRecord) (dv : List ℚ) (c : ℚ) (n : ℕ) (m : BacktestMetrics),
        dv ≠ [] → calculateMetrics th dv c n = Except.ok m →
        m.win_rate = winRateCalc th ∧ m.profit_factor = profitFactorCalc th ∧
        m.total_trades = (sellsOf th).length) ∧
    (∀ th : List TradeRecord, sellsOf th ≠ [] →
        winRateCalc th =
          (((sellsOf th).countP (fun t => decide (0 < t.profit))) : ℚ) /
            ((sellsOf th).length : ℚ) * 100) ∧
    (∀ th : List TradeRecord, |(losersOf th).sum| ≠ 0 →
        profitFactorCalc th =
          (((winnersOf th).sum / |(losersOf th).sum| : ℚ) : WithTop ℚ)) ∧
    (∀ th : List TradeRecord, winnersOf th ≠ [] → losersOf th = [] →
        profitFactorCalc th = ⊤) ∧
    (∀ th : List TradeRecord, sellsOf th = [] →
        winRateCalc th = 0 ∧ profitFactorCalc th = 0) := by
  refine ⟨?_, ?_, ?_, ?_, ?_⟩
  · intro th dv c n m hdv h
    cases dv with
    | nil => exact absurd rfl hdv
    | cons v0 vrest =>
        simp only [calculateMetrics] at h
        split at h
        · exact absurd h (by simp)
        · split at h
          · exact absurd h (by simp)
          · have hm := Except.ok.inj h
            rw [← hm]
            exact ⟨rfl, rfl, rfl⟩
  · intro th hne
    rw [winRateCalc, if_neg (by simpa [List.isEmpty_iff] using hne)]
    congr 2
    rw [winnersOf, profitsOf, ← List.countP_eq_length_filter, List.countP_map]
    rfl
  · intro th habs
    have hlosers : losersOf th ≠ [] := by
      intro h0
      rw [h0] at habs
      simp at habs
    have hsells : sellsOf th ≠ [] := by
      intro h0
      exact hlosers (sellsOf_nil_losers h0)
    rw [profitFactorCalc, if_neg (by simpa [List.isEmpty_iff] using hsells)]
    rw [if_pos (lt_of_le_of_ne (abs_nonneg _) (Ne.symm habs))]
  · intro th hwin hlos
    have hsells : sellsOf th ≠ [] := by
      intro h0
      exact hwin (sellsOf_nil_winners h0)
    rw [profitFactorCalc, if_neg (by simpa [List.isEmpty_iff] using hsells)]
    rw [hlos]
    norm_num
  · intro th h
    constructor
    · rw [winRateCalc, if_pos (by simp [h])]
    · rw [profitFactorCalc, if_pos (by simp [h])]

/-- Witness for C9 on `exampleTrades` (three sells with profits 5, −2, 0):
win rate 100/3 and profit factor 5/2. -/
theorem trade_stats_correct_witness :
    sellsOf exampleTrades ≠ [] ∧
    winRateCalc exampleTrades =
      (((sellsOf exampleTrades).countP (fun t => decide (0 < t.profit))) : ℚ) /
        ((sellsOf exampleTrades).length : ℚ) * 100 ∧
    |(losersOf exampleTrades).sum| ≠ 0 ∧
    profitFactorCalc exampleTrades =
      (((winnersOf exampleTrades).sum / |(losersOf exampleTrades).sum| : ℚ) :
        WithTop ℚ) ∧
    winRateCalc exampleTrades = 100 / 3 ∧
    profitFactorCalc exampleTrades = ((5 / 2 : ℚ) : WithTop ℚ) := by
  have hs : sellsOf exampleTrades ≠ [] := by decide
  have hlosers : losersOf exampleTrades = [-2, 0] := by decide
  have hwinners : winnersOf exampleTrades = [5] := by decide
  have hcount : (sellsOf exampleTrades).countP (fun t => decide (0 < t.profit)) = 1 := by
    decide
  have hlen : (sellsOf exampleTrades).length = 3 := by decide
  have habs : |(losersOf exampleTrades).sum| ≠ 0 := by
    rw [hlosers]
    norm_num
  refine ⟨hs, trade_stats_correct.2.1 exampleTrades hs, habs,
    trade_stats_correct.2.2.1 exampleTrades habs, ?_, ?_⟩
  · rw [trade_stats_correct.2.1 exampleTrades hs, hcount, hlen]
    norm_num
  · rw [trade_stats_correct.2.2.1 exampleTrades habs, hwinners, hlosers]
    norm_num

end Stock
